import Mathlib

/-!
Shallow embedding of the spreadsheet-processing pipeline of `app.py`
(header normalisation to ISO `YYYYWW` week keys, row filtering on the
status column, and week-column consolidation), together with proofs of
the specification claims.

Cell values are modelled as a tagged variant over number / text /
missing; machine floats of the source are modelled as integers (no
claim exercises fractional arithmetic).  String primitives of the host
language (`str.strip`, `str.lower`, `str(int)`, regex `\d`) are
modelled over ASCII by explicit, executable character-list functions.
-/

namespace App

/-! ### ASCII character and string primitives -/

/-- Model of the regex class `\d` (ASCII decimal digit). -/
def isDig (c : Char) : Bool := 48 ≤ c.toNat && c.toNat ≤ 57

/-- Whitespace recognised by Python `str.strip` (ASCII part). -/
def isSpaceChar (c : Char) : Bool :=
  c.toNat == 32 || c.toNat == 9 || c.toNat == 10 || c.toNat == 13 ||
  c.toNat == 11 || c.toNat == 12

/-- Strip leading and trailing whitespace from a character list. -/
def stripL (l : List Char) : List Char :=
  ((l.dropWhile isSpaceChar).reverse.dropWhile isSpaceChar).reverse

/-- Model of Python `str.strip()`. -/
def strip (s : String) : String := ⟨stripL s.data⟩

/-- Model of Python `str.lower()` on an ASCII character. -/
def lowerChar (c : Char) : Char :=
  if 65 ≤ c.toNat ∧ c.toNat ≤ 90 then Char.ofNat (c.toNat + 32) else c

/-- Model of Python `str.lower()`. -/
def lower (s : String) : String := ⟨s.data.map lowerChar⟩

/-- Lexicographic (code-point) order on character lists, as used by
Python string comparison. -/
def charsLe : List Char → List Char → Bool
  | [], _ => true
  | _ :: _, [] => false
  | a :: as, b :: bs =>
    if a.toNat < b.toNat then true
    else if b.toNat < a.toNat then false
    else charsLe as bs

/-- Python `≤` on strings. -/
def strLe (a b : String) : Bool := charsLe a.data b.data

/-- Numeric value of a digit string (model of Python `int(s)` on a
string of ASCII digits). -/
def digitsVal (l : List Char) : Nat :=
  l.foldl (fun acc c => acc * 10 + (c.toNat - 48)) 0

/-- A field made of one or more ASCII digits, with its value. -/
def fieldNat (l : List Char) : Option Nat :=
  if l.isEmpty then none
  else if l.all isDig then some (digitsVal l) else none

/-- Split a character list on a separator character. -/
def splitChars (sep : Char) : List Char → List (List Char)
  | [] => [[]]
  | c :: rest =>
    let r := splitChars sep rest
    if c = sep then [] :: r
    else
      match r with
      | h :: t => (c :: h) :: t
      | [] => [[c]]

/-- The ASCII digit character for `n < 10`. -/
def digCh (n : Nat) : Char := Char.ofNat (48 + n)

/-- Fuel-driven decimal printer (the fuel bounds the recursion depth;
`fuel = n + 1` always suffices). -/
def natStrAux (fuel n : Nat) : List Char :=
  match fuel with
  | 0 => []
  | f + 1 =>
    if n < 10 then [digCh n]
    else natStrAux f (n / 10) ++ [digCh (n % 10)]

/-- Model of Python `str()` on a natural number. -/
def natStr (n : Nat) : String := ⟨natStrAux (n + 1) n⟩

/-- Model of Python `str()` on an integer. -/
def intStr : Int → String
  | .ofNat n => ⟨natStrAux (n + 1) n⟩
  | .negSucc n => ⟨'-' :: natStrAux (n + 2) (n + 1)⟩

/-- The source's `"{:02d}".format(w)`: zero-pad to two digits. -/
def pad2 (n : Nat) : String := if n < 10 then "0" ++ natStr n else natStr n

/-- `int(xs)` as used by the sort key on 6-digit labels. -/
def toNatD (s : String) : Nat := digitsVal s.data

/-- The 6-digit week-key test: `fullmatch r"\d{6}"` at line 43, and
`xs.isdigit() and len(xs) == 6` of the sort key at line 82 (ASCII
model). -/
def is6dig (s : String) : Bool := s.data.length == 6 && s.data.all isDig

/-! ### Cells -/

/-- A spreadsheet cell: number, text, or missing (NaN). -/
inductive Cell where
  | num (n : Int)
  | text (s : String)
  | missing
  deriving DecidableEq

instance : Inhabited Cell := ⟨Cell.missing⟩

/-- Integer parsed out of a text cell, sign included; `none` when the
text is not a plain integer numeral. -/
def parseIntChars : List Char → Option Int
  | '-' :: rest => (fieldNat rest).map (fun n => -(n : Int))
  | '+' :: rest => (fieldNat rest).map (fun n => (n : Int))
  | l => (fieldNat l).map (fun n => (n : Int))

/-- Model of `pd.to_numeric(errors="coerce")` on one cell (line 65):
numbers pass through, numeric text parses, everything else coerces to
missing. -/
def toNumeric : Cell → Option Int
  | .num n => some n
  | .text s => parseIntChars (stripL s.data)
  | .missing => none

/-- Model of `astype(str)` on one cell (line 92): a missing value
renders as `"nan"`. -/
def cellStr : Cell → String
  | .num n => intStr n
  | .text s => s
  | .missing => "nan"

/-- Repack an optional number as a cell. -/
def optToCell : Option Int → Cell
  | some n => .num n
  | none => .missing

/-- Pairwise accumulation of the row-wise `sum(min_count=1)`: missing
plus missing is missing, otherwise missing counts as zero. -/
def addOpt : Option Int → Option Int → Option Int
  | none, none => none
  | a, b => some (a.getD 0 + b.getD 0)

/-! ### Dates and the ISO calendar -/

/-- A calendar date. -/
structure YMD where
  year : Nat
  month : Nat
  day : Nat
  deriving DecidableEq

/-- Gregorian leap year. -/
def isLeap (y : Nat) : Bool := y % 4 == 0 && (y % 100 != 0 || y % 400 == 0)

/-- Days in a month. -/
def daysInMonth (y m : Nat) : Nat :=
  if m = 2 then (if isLeap y then 29 else 28)
  else if m = 4 ∨ m = 6 ∨ m = 9 ∨ m = 11 then 30
  else 31

/-- Days in the months before month `m` of a year with leap flag `lp`. -/
def cumDays (lp : Bool) (m : Nat) : Nat :=
  let l : Nat := if lp then 1 else 0
  match m with
  | 1 => 0
  | 2 => 31
  | 3 => 59 + l
  | 4 => 90 + l
  | 5 => 120 + l
  | 6 => 151 + l
  | 7 => 181 + l
  | 8 => 212 + l
  | 9 => 243 + l
  | 10 => 273 + l
  | 11 => 304 + l
  | 12 => 334 + l
  | _ => 365 + l

/-- Validity of a calendar date. -/
def validYMD (y m d : Nat) : Bool :=
  1 ≤ m && m ≤ 12 && 1 ≤ d && d ≤ daysInMonth y m

/-- Date triple order, lexicographic. -/
def tsLe (y1 m1 d1 y2 m2 d2 : Nat) : Bool :=
  y1 < y2 || (y1 == y2 && (m1 < m2 || (m1 == m2 && d1 ≤ d2)))

/-- Pandas `Timestamp` bounds (1677-09-21 … 2262-04-11); dates outside
them coerce to `NaT` under `errors="coerce"`. -/
def inTsBounds (y m d : Nat) : Bool :=
  tsLe 1677 9 21 y m d && tsLe y m d 2262 4 11

/-- Build a date if valid and representable as a pandas timestamp. -/
def mkDate (y m d : Nat) : Option YMD :=
  if validYMD y m d && inTsBounds y m d then some ⟨y, m, d⟩ else none

/-- Model of `pd.to_datetime(x, errors="coerce", dayfirst=True)` (line
45), restricted to numeric `D/M/YYYY`-family and ISO `YYYY-M-D`
formats: with a trailing 4-digit year field the day-first reading is
tried before the month-first fallback. -/
def parseDate (s : String) : Option YMD :=
  let t := stripL s.data
  let parts := if t.any (fun c => c == '/') then splitChars '/' t else splitChars '-' t
  match parts with
  | [a, b, c] =>
    match fieldNat a, fieldNat b, fieldNat c with
    | some x, some y, some z =>
      if a.length == 4 then mkDate x y z
      else if c.length == 4 then
        match mkDate z y x with
        | some d => some d
        | none => mkDate z x y
      else none
    | _, _, _ => none
  | _ => none

/-- Days before January 1st of year `y` in the proleptic Gregorian
calendar (year 1, January 1st is day number 1). -/
def daysBeforeYear (y : Nat) : Nat :=
  365 * (y - 1) + (y - 1) / 4 + (y - 1) / 400 - (y - 1) / 100

/-- Ordinal day of the year (1-based). -/
def dayOfYear (d : YMD) : Nat := cumDays (isLeap d.year) d.month + d.day

/-- ISO weekday, Monday = 1 … Sunday = 7. -/
def isoWeekday (d : YMD) : Nat :=
  (daysBeforeYear d.year + dayOfYear d + 6) % 7 + 1

/-- Weekday index of December 31st of year `y`; the year has 53 ISO
weeks iff this is 4, or the previous year's is 3. -/
def pLong (y : Nat) : Nat := (y + y / 4 + y / 400 - y / 100) % 7

/-- Number of ISO weeks in year `y` (52 or 53). -/
def weeksInYear (y : Nat) : Nat :=
  if pLong y == 4 || pLong (y - 1) == 3 then 53 else 52

/-- ISO calendar (year, week) of a date, per the ISO-8601 week rules
(model of `Timestamp.isocalendar()`, lines 50-51). -/
def isocalendar (d : YMD) : Nat × Nat :=
  let wd := isoWeekday d
  let w0 := (dayOfYear d + 10 - wd) / 7
  if w0 = 0 then (d.year - 1, weeksInYear (d.year - 1))
  else if w0 > weeksInYear d.year then (d.year + 1, 1)
  else (d.year, w0)

/-! ### Header classification (`convert_headers_to_yyyyww`, lines 40-56) -/

/-- Per-label classification: a 6-digit label is kept verbatim and
flagged as a week column without consulting the date parser (the
source masks such labels to `None` before `to_datetime`); otherwise a
date-parseable label is renamed to ISO year ++ zero-padded ISO week
and flagged; anything else passes through unflagged. -/
def classifyLabel (s : String) : String × Bool :=
  if is6dig s then (s, true)
  else
    match parseDate s with
    | some d => (natStr (isocalendar d).1 ++ pad2 (isocalendar d).2, true)
    | none => (s, false)

/-- `convert_headers_to_yyyyww`: new labels and the week mask. -/
def convert_headers_to_yyyyww (cols : List String) : List String × List Bool :=
  ((cols.map classifyLabel).map Prod.fst, (cols.map classifyLabel).map Prod.snd)

/-! ### Tables -/

/-- A named column of cells. -/
structure Col where
  label : String
  cells : List Cell
  deriving DecidableEq

instance : Inhabited Col := ⟨⟨"", []⟩⟩

/-- A table is an ordered list of named columns. -/
abbrev Table := List Col

/-- Keep the entries of `l` at the positions where `m` is `true`. -/
def maskList {α : Type} (l : List α) (m : List Bool) : List α :=
  ((l.zip m).filter Prod.snd).map Prod.fst

/-- Apply a row mask to one column. -/
def applyRowMask (m : List Bool) (c : Col) : Col :=
  ⟨c.label, maskList c.cells m⟩

/-- Number of rows (length of the first column; pandas tables are
rectangular). -/
def nRows (df : Table) : Nat := (df.headD default).cells.length

/-- Rectangularity: every column has `nRows df` cells. -/
def wfTable (df : Table) : Prop := ∀ c ∈ df, c.cells.length = nRows df

instance (df : Table) : Decidable (wfTable df) := by
  unfold wfTable
  infer_instance

/-- Cell of column `c` at row `i`. -/
def getRowCell (c : Col) (i : Nat) : Cell := c.cells.getD i Cell.missing

/-- Row `i` of the table. -/
def getRow (df : Table) (i : Nat) : List Cell := df.map (fun c => getRowCell c i)

/-- The table viewed as its list of rows. -/
def tableRows (df : Table) : List (List Cell) :=
  (List.range (nRows df)).map (getRow df)

/-! ### Row filter (`filter_firm_forecast_colB`, lines 88-94) -/

/-- The status test of line 92-93: stringified, stripped, lowered cell
text must be `"firm"` or `"forecast"`. -/
def passCell (v : Cell) : Bool :=
  lower (strip (cellStr v)) == "firm" || lower (strip (cellStr v)) == "forecast"

/-- `filter_firm_forecast_colB`: keep rows whose column-1 status cell
passes `passCell`; tables with fewer than 2 columns are returned
unchanged. -/
def filter_firm_forecast_colB (df : Table) : Table :=
  if df.length ≤ 1 then df
  else
    let colB := df.getD 1 default
    let m := colB.cells.map passCell
    df.map (applyRowMask m)

/-! ### Consolidation (`consolidate_weeks_fast`, lines 59-85) -/

/-- `df.loc[:, mask == b]`: the columns whose mask entry is `b`, in
order. -/
def mask2 (df : Table) (m : List Bool) (b : Bool) : Table :=
  ((df.zip m).filter (fun p => p.2 == b)).map Prod.fst

/-- Numeric coercion of a whole column (line 65). -/
def numCells (c : Col) : List (Option Int) := c.cells.map toNumeric

/-- The member columns of the group keyed `k`. -/
def groupCols (wk : Table) (k : String) : Table :=
  wk.filter (fun c => c.label == k)

/-- Whether a coerced group holds any non-missing numeric cell. -/
def anySome (g : List (List (Option Int))) : Bool :=
  g.any (fun col => col.any Option.isSome)

/-- Row-wise `sum(min_count=1)` across the columns of a group (line
66). -/
def sumGroup : List (List (Option Int)) → List (Option Int)
  | [] => []
  | c :: cs => cs.foldl (fun acc col => List.zipWith addOpt acc col) c

/-- Consolidated column for key `k`: the min-count sum when the group
has any numeric cell (line 66); otherwise the fallback assignment
`wk_sum[name] = wk[cols[0]]` of line 75 runs.  `cols[0]` is the group
label itself, so for a singleton group `wk[cols[0]]` is one column and
the original cells are kept verbatim, while for a multi-member group
it selects every column with that label — a multi-column frame whose
assignment to the single column `wk_sum[name]` raises `ValueError`,
modelled as `none`. -/
def mergeGroup (wk : Table) (k : String) : Option Col :=
  let g := groupCols wk k
  let gn := g.map numCells
  if anySome gn then some ⟨k, (sumGroup gn).map optToCell⟩
  else
    match g with
    | [c] => some ⟨k, c.cells⟩
    | _ => none

/-- Evaluate an option-returning function over a list, failing when any
element fails (the loop of lines 72-75 raises on the first bad group,
aborting the whole computation). -/
def mapOption {α β : Type} (f : α → Option β) : List α → Option (List β)
  | [] => some []
  | a :: t =>
    match f a, mapOption f t with
    | some b, some bs => some (b :: bs)
    | _, _ => none

/-- Keep the first column of each label, scanning with a seen-set. -/
def dedupFirstAux (seen : List String) : Table → Table
  | [] => []
  | c :: cs =>
    if c.label ∈ seen then dedupFirstAux seen cs
    else c :: dedupFirstAux (c.label :: seen) cs

/-- `~columns.duplicated(keep="last")` (line 77): keep the last column
of each label. -/
def dedupKeepLast (t : Table) : Table :=
  (dedupFirstAux [] t.reverse).reverse

/-- The sort key `wkey` of lines 80-82 as an order: 6-digit keys sort
by integer value before all other labels, which sort as strings. -/
def wkeyLe (a b : String) : Bool :=
  if is6dig a then
    if is6dig b then decide (toNatD a ≤ toNatD b) else true
  else
    if is6dig b then false
    else strLe a b

/-- String order as a relation (pandas `groupby(sort=True)` key
order). -/
def strRel (a b : String) : Prop := strLe a b = true

instance : DecidableRel strRel := fun _ _ => instDecidableEqBool _ _

/-- `wkey` order lifted to columns (line 83's `sorted` call). -/
def colRel (c d : Col) : Prop := wkeyLe c.label d.label = true

instance : DecidableRel colRel := fun _ _ => instDecidableEqBool _ _

/-- First column with the given label. -/
def findCol (t : Table) (k : String) : Option Col :=
  t.find? (fun c => c.label == k)

/-- `consolidate_weeks_fast`: split into non-week and week columns;
when week columns exist, group them by label (pandas sorts group keys),
merge each group — `none` when any group raises at line 75 — drop
duplicate labels keeping the last, optionally sort by `wkey`, and
append to the non-week columns. -/
def consolidate_weeks_fast (df : Table) (week_mask : List Bool)
    (sort_week_cols : Bool) : Option Table :=
  let non := mask2 df week_mask false
  let wk := mask2 df week_mask true
  if wk.isEmpty then some df
  else
    match mapOption (mergeGroup wk) (List.insertionSort strRel ((wk.map Col.label).dedup)) with
    | none => none
    | some ws =>
      let ws := dedupKeepLast ws
      let ws := if sort_week_cols then List.insertionSort colRel ws else ws
      some (non ++ ws)

/-! ### Pipeline (`process_excel`, lines 97-104, the pure part) -/

/-- The processing pipeline applied to an in-memory table: row filter,
header classification, consolidation with default sorting; `none` when
consolidation raises. -/
def process_table (df : Table) : Option Table :=
  let df1 := filter_firm_forecast_colB df
  let hdr := convert_headers_to_yyyyww (df1.map Col.label)
  let df2 := List.zipWith (fun l c => Col.mk l c.cells) hdr.1 df1
  consolidate_weeks_fast df2 hdr.2 true

/-! ### Sanity checks of the calendar model against known ISO dates -/

example : isoWeekday ⟨2024, 1, 1⟩ = 1 := by decide
example : isoWeekday ⟨2024, 4, 3⟩ = 3 := by decide
example : isocalendar ⟨2024, 1, 1⟩ = (2024, 1) := by decide
example : isocalendar ⟨2023, 1, 1⟩ = (2022, 52) := by decide
example : isocalendar ⟨2021, 1, 1⟩ = (2020, 53) := by decide
example : isocalendar ⟨2024, 12, 30⟩ = (2025, 1) := by decide
example : isocalendar ⟨2024, 12, 29⟩ = (2024, 52) := by decide
example : isocalendar ⟨2024, 1, 22⟩ = (2024, 4) := by decide
example : isocalendar ⟨2026, 12, 28⟩ = (2026, 53) := by decide
example : parseDate "03/04/2024" = some ⟨2024, 4, 3⟩ := by decide
example : parseDate "01/22/2024" = some ⟨2024, 1, 22⟩ := by decide
example : parseDate "2024-01-22" = some ⟨2024, 1, 22⟩ := by decide
example : parseDate "" = none := by decide
example : parseDate "Name" = none := by decide
example : classifyLabel "03/04/2024" = ("202414", true) := by decide
example : classifyLabel "202413" = ("202413", true) := by decide

/-! ### Sanity checks of the table pipeline on concrete inputs -/

example :
    consolidate_weeks_fast
      [⟨"202401", [.num 1, .missing]⟩, ⟨"202401", [.missing, .num 2]⟩]
      [true, true] true
    = some [⟨"202401", [.num 1, .num 2]⟩] := by decide

example :
    consolidate_weeks_fast
      [⟨"202401", [.missing, .missing]⟩, ⟨"202401", [.missing, .missing]⟩]
      [true, true] true
    = none := by decide

example :
    consolidate_weeks_fast [⟨"202401", [.missing, .missing]⟩] [true] true
    = some [⟨"202401", [.missing, .missing]⟩] := by decide

example :
    filter_firm_forecast_colB
      [⟨"Name", [.text "a", .text "b", .text "c", .text "d"]⟩,
       ⟨"Status", [.text "Firm", .text "forecast ", .text "Other", .text "FIRM"]⟩]
    = [⟨"Name", [.text "a", .text "b", .text "d"]⟩,
       ⟨"Status", [.text "Firm", .text "forecast ", .text "FIRM"]⟩] := by decide

example :
    (consolidate_weeks_fast
      [⟨"Name", [.text "a"]⟩, ⟨"Status", [.text "Firm"]⟩,
       ⟨"202402", [.num 2]⟩, ⟨"202401", [.num 1]⟩, ⟨"202410", [.num 3]⟩]
      [false, false, true, true, true] true).map (List.map Col.label)
    = some ["Name", "Status", "202401", "202402", "202410"] := by decide

example :
    process_table
      [⟨"Name", [.text "a", .text "b"]⟩,
       ⟨"Status", [.text "Firm", .text "Other"]⟩,
       ⟨"01/22/2024", [.num 10, .num 1]⟩,
       ⟨"202404", [.num 5, .num 2]⟩,
       ⟨"03/01/2024", [.num 7, .num 3]⟩]
    = some [⟨"Name", [.text "a"]⟩, ⟨"Status", [.text "Firm"]⟩,
       ⟨"202401", [.num 7]⟩, ⟨"202404", [.num 15]⟩] := by decide

/-! ### Helper lemmas: characters and strings -/

lemma mk_data (s : String) : (⟨s.data⟩ : String) = s := by
  cases s
  rfl

lemma digCh_digit (n : Nat) (h : n < 10) : isDig (digCh n) = true := by
  interval_cases n <;> decide

lemma natStrAux_digits : ∀ (fuel n : Nat), ∀ c ∈ natStrAux fuel n, isDig c = true := by
  intro fuel
  induction fuel with
  | zero => intro n c hc; simp [natStrAux] at hc
  | succ f ih =>
    intro n c hc
    rw [natStrAux] at hc
    split at hc
    · next h =>
      rw [List.mem_singleton] at hc
      subst hc
      exact digCh_digit n h
    · next h =>
      rcases List.mem_append.mp hc with h1 | h1
      · exact ih _ c h1
      · rw [List.mem_singleton] at h1
        subst h1
        exact digCh_digit _ (Nat.mod_lt _ (by omega))

lemma intStr_chars (n : Int) : ∀ c ∈ (intStr n).data, isDig c = true ∨ c = '-' := by
  cases n with
  | ofNat m => exact fun c hc => Or.inl (natStrAux_digits _ _ c hc)
  | negSucc m =>
    intro c hc
    rcases List.mem_cons.mp hc with h | h
    · exact Or.inr h
    · exact Or.inl (natStrAux_digits _ _ c h)

lemma dig_not_space {c : Char} (h : isDig c = true ∨ c = '-') : isSpaceChar c = false := by
  have hn : 48 ≤ c.toNat ∧ c.toNat ≤ 57 ∨ c.toNat = 45 := by
    rcases h with h | h
    · left; simpa [isDig, Bool.and_eq_true, decide_eq_true_eq] using h
    · right; subst h; rfl
  simp only [isSpaceChar, Bool.or_eq_false_iff, beq_eq_false_iff_ne, ne_eq]
  omega

lemma dropWhile_head_false {α : Type} {p : α → Bool} (l : List α)
    (h : ∀ c ∈ l, p c = false) : l.dropWhile p = l := by
  cases l with
  | nil => rfl
  | cons a t => simp [List.dropWhile_cons, h a (List.mem_cons_self a t)]

lemma stripL_id {l : List Char} (h : ∀ c ∈ l, isSpaceChar c = false) : stripL l = l := by
  unfold stripL
  rw [dropWhile_head_false l h,
      dropWhile_head_false l.reverse (fun c hc => h c (List.mem_reverse.mp hc)),
      List.reverse_reverse]

lemma lower_fix {s : String} (h : ∀ c ∈ s.data, isDig c = true ∨ c = '-') :
    lower s = s := by
  have h2 : ∀ c ∈ s.data, lowerChar c = id c := by
    intro c hc
    rcases h c hc with hd | hd
    · simp only [isDig, Bool.and_eq_true, decide_eq_true_eq] at hd
      unfold lowerChar
      rw [if_neg (by omega)]
      rfl
    · subst hd; rfl
  unfold lower
  rw [List.map_congr_left h2, List.map_id, mk_data]

lemma passCell_missing : passCell Cell.missing = false := by decide

lemma passCell_num (n : Int) : passCell (Cell.num n) = false := by
  have hch := intStr_chars n
  have hstrip : strip (cellStr (Cell.num n)) = intStr n := by
    show strip (intStr n) = intStr n
    unfold strip
    rw [stripL_id (fun c hc => dig_not_space (hch c hc)), mk_data]
  have h1 : intStr n ≠ "firm" := by
    intro he
    have hf : 'f' ∈ (intStr n).data := by rw [he]; decide
    rcases hch _ hf with hd | hd
    · revert hd; decide
    · exact absurd hd (by decide)
  have h2 : intStr n ≠ "forecast" := by
    intro he
    have hf : 'f' ∈ (intStr n).data := by rw [he]; decide
    rcases hch _ hf with hd | hd
    · revert hd; decide
    · exact absurd hd (by decide)
  unfold passCell
  rw [hstrip, lower_fix hch]
  simp [Bool.or_eq_false_iff, beq_eq_false_iff_ne, h1, h2]

/-! ### Helper lemmas: masks, rows, transposition -/

/-- The 0-based row indices kept by a boolean mask. -/
def keptIdx : List Bool → List Nat
  | [] => []
  | b :: m => if b then 0 :: (keptIdx m).map (· + 1) else (keptIdx m).map (· + 1)

lemma maskList_cons_true {α : Type} (x : α) (t : List α) (m : List Bool) :
    maskList (x :: t) (true :: m) = x :: maskList t m := by
  simp [maskList, List.zip_cons_cons, List.filter_cons]

lemma maskList_cons_false {α : Type} (x : α) (t : List α) (m : List Bool) :
    maskList (x :: t) (false :: m) = maskList t m := by
  simp [maskList, List.zip_cons_cons, List.filter_cons]

lemma maskList_eq_keptIdx {α : Type} (d : α) :
    ∀ (m : List Bool) (l : List α), l.length = m.length →
      maskList l m = (keptIdx m).map (fun i => l.getD i d) := by
  intro m
  induction m with
  | nil =>
    intro l hl
    rw [List.length_nil] at hl
    rw [List.eq_nil_of_length_eq_zero hl]
    rfl
  | cons b m ih =>
    intro l hl
    cases l with
    | nil => simp at hl
    | cons x t =>
      simp only [List.length_cons] at hl
      have ht := ih t (by omega)
      cases b with
      | true =>
        rw [maskList_cons_true, ht, keptIdx]
        simp [List.map_map, Function.comp, List.getD_cons_succ]
      | false =>
        rw [maskList_cons_false, ht, keptIdx]
        simp [List.map_map, Function.comp, List.getD_cons_succ]

lemma keptIdx_lt : ∀ m : List Bool, ∀ i ∈ keptIdx m, i < m.length := by
  intro m
  induction m with
  | nil => simp [keptIdx]
  | cons b m ih =>
    intro i hi
    cases b with
    | true =>
      simp only [keptIdx, if_true, List.mem_cons, List.mem_map] at hi
      rcases hi with rfl | ⟨j, hj, rfl⟩
      · simp
      · have := ih j hj; simp only [List.length_cons]; omega
    | false =>
      simp only [keptIdx, Bool.false_eq_true, if_false, List.mem_map] at hi
      rcases hi with ⟨j, hj, rfl⟩
      have := ih j hj; simp only [List.length_cons]; omega

lemma zip_self_filter {α : Type} (f : α → Bool) :
    ∀ l : List α, maskList l (l.map f) = l.filter f := by
  intro l
  induction l with
  | nil => rfl
  | cons x t ih =>
    rw [List.map_cons]
    cases hf : f x
    · rw [maskList_cons_false, ih, List.filter_cons, if_neg (by simp [hf])]
    · rw [maskList_cons_true, ih, List.filter_cons, if_pos hf]

lemma range_getD_map {α β : Type} (d : α) (g : α → β) :
    ∀ l : List α, (List.range l.length).map (fun i => g (l.getD i d)) = l.map g := by
  intro l
  induction l with
  | nil => rfl
  | cons x t ih =>
    rw [List.length_cons, List.range_succ_eq_map, List.map_cons, List.map_map, List.map_cons,
        List.getD_cons_zero]
    congr 1

lemma getD_range_map {β : Type} (g : Nat → β) {n i : Nat} (d : β) (h : i < n) :
    ((List.range n).map g).getD i d = g i := by
  rw [List.getD_eq_getElem _ _ (by simp [h]), List.getElem_map, List.getElem_range]

lemma getD_map_lt {α β : Type} (f : α → β) {l : List α} {i : Nat} (d : β) (d' : α)
    (h : i < l.length) : (l.map f).getD i d = f (l.getD i d') := by
  rw [List.getD_eq_getElem _ _ (by simp [h]), List.getElem_map,
      List.getD_eq_getElem _ _ h]

lemma tableRows_maskCols (df : Table) (m : List Bool)
    (hwf : wfTable df) (hm : m.length = nRows df) (hne : df ≠ []) :
    tableRows (df.map (applyRowMask m)) = maskList (tableRows df) m := by
  obtain ⟨c0, df', rfl⟩ : ∃ c0 df', df = c0 :: df' := by
    cases df with
    | nil => exact absurd rfl hne
    | cons a b => exact ⟨a, b, rfl⟩
  set df := c0 :: df' with hdf
  have hrows_len : (tableRows df).length = m.length := by
    simp [tableRows, hm]
  have hcells : ∀ c ∈ df, c.cells.length = m.length := by
    intro c hc; rw [hwf c hc, hm]
  have hn : nRows (df.map (applyRowMask m)) = (keptIdx m).length := by
    show (applyRowMask m c0).cells.length = _
    show (maskList c0.cells m).length = _
    rw [maskList_eq_keptIdx Cell.missing m c0.cells (hcells c0 (List.mem_cons_self _ _)),
        List.length_map]
  have hrow : ∀ i, i < (keptIdx m).length →
      getRow (df.map (applyRowMask m)) i = getRow df ((keptIdx m).getD i 0) := by
    intro i hi
    unfold getRow
    rw [List.map_map]
    apply List.map_congr_left
    intro c hc
    show getRowCell (applyRowMask m c) i = getRowCell c ((keptIdx m).getD i 0)
    show (maskList c.cells m).getD i Cell.missing = _
    rw [maskList_eq_keptIdx Cell.missing m c.cells (hcells c hc),
        getD_map_lt (fun j => c.cells.getD j Cell.missing) Cell.missing 0 hi]
    rfl
  have lhs1 : tableRows (df.map (applyRowMask m)) =
      (List.range (keptIdx m).length).map (getRow (df.map (applyRowMask m))) := by
    unfold tableRows
    rw [hn]
  rw [lhs1, maskList_eq_keptIdx ([] : List Cell) m (tableRows df) hrows_len]
  have lhs2 : (List.range (keptIdx m).length).map (getRow (df.map (applyRowMask m)))
      = (List.range (keptIdx m).length).map (fun i => getRow df ((keptIdx m).getD i 0)) := by
    apply List.map_congr_left
    intro i hi
    exact hrow i (List.mem_range.mp hi)
  rw [lhs2, range_getD_map 0 (getRow df) (keptIdx m)]
  apply List.map_congr_left
  intro i hi
  have hilt : i < nRows df := by
    rw [← hm]; exact keptIdx_lt m i hi
  show getRow df i = (tableRows df).getD i []
  unfold tableRows
  rw [getD_range_map (getRow df) ([] : List Cell) hilt]

/-! ### Helper lemmas: the row filter -/

lemma filter_small (df : Table) (h : df.length ≤ 1) :
    filter_firm_forecast_colB df = df := by
  unfold filter_firm_forecast_colB
  rw [if_pos h]

lemma filter_labels (df : Table) (h2 : 2 ≤ df.length) :
    (filter_firm_forecast_colB df).map Col.label = df.map Col.label := by
  unfold filter_firm_forecast_colB
  rw [if_neg (by omega), List.map_map]
  apply List.map_congr_left
  intro c _
  rfl

lemma filter_rows_eq (df : Table) (hwf : wfTable df) (h2 : 2 ≤ df.length) :
    tableRows (filter_firm_forecast_colB df) =
      (tableRows df).filter (fun r => passCell (r.getD 1 Cell.missing)) := by
  have hne : df ≠ [] := by
    intro h; subst h; simp at h2
  have h1lt : 1 < df.length := h2
  have hcolB_mem : df.getD 1 default ∈ df := by
    rw [List.getD_eq_getElem _ _ h1lt]
    exact List.getElem_mem _
  have hm : ((df.getD 1 default).cells.map passCell).length = nRows df := by
    rw [List.length_map, hwf _ hcolB_mem]
  unfold filter_firm_forecast_colB
  rw [if_neg (by omega)]
  rw [tableRows_maskCols df _ hwf hm hne]
  have hmeq : (df.getD 1 default).cells.map passCell
      = (tableRows df).map (fun r => passCell (r.getD 1 Cell.missing)) := by
    apply List.ext_getElem
    · rw [List.length_map, List.length_map, hwf _ hcolB_mem]
      simp [tableRows]
    · intro i hi1 hi2
      rw [List.getElem_map, List.getElem_map]
      congr 1
      have hilt : i < nRows df := by
        rw [← hwf _ hcolB_mem]
        simpa using hi1
      simp only [tableRows, List.getElem_map, List.getElem_range]
      unfold getRow
      rw [getD_map_lt (fun c => getRowCell c i) Cell.missing default h1lt]
      unfold getRowCell
      exact (List.getD_eq_getElem _ Cell.missing (by rw [hwf _ hcolB_mem]; exact hilt)).symm
  rw [hmeq, zip_self_filter]

/-! ### Claims C4, C5, C9 (header classification) -/

/-- C4: a label made of exactly 6 ASCII digits is returned unchanged
and flagged as a week column, without consulting the date parser. -/
theorem claim_C4_sixdigit_passthrough (s : String) (h : is6dig s = true) :
    classifyLabel s = (s, true) := by
  unfold classifyLabel
  rw [if_pos h]

theorem claim_C4_sixdigit_passthrough_witness :
    is6dig "202413" = true ∧ classifyLabel "202413" = ("202413", true) :=
  ⟨by decide, claim_C4_sixdigit_passthrough "202413" (by decide)⟩

/-- C5: a non-6-digit label that parses as a calendar date (day-first
on ambiguous numeric forms: "03/04/2024" is day 3, month 4) is renamed
to the ISO year concatenated with the zero-padded 2-digit ISO week and
flagged as a week column. -/
theorem claim_C5_date_to_isoweek :
    (∀ (s : String) (d : YMD), is6dig s = false → parseDate s = some d →
      classifyLabel s = (natStr (isocalendar d).1 ++ pad2 (isocalendar d).2, true)) ∧
    parseDate "03/04/2024" = some ⟨2024, 4, 3⟩ := by
  constructor
  · intro s d h1 h2
    unfold classifyLabel
    rw [if_neg (by simp [h1]), h2]
  · decide

theorem claim_C5_date_to_isoweek_witness :
    classifyLabel "03/04/2024" = ("202414", true) :=
  (claim_C5_date_to_isoweek.1 "03/04/2024" ⟨2024, 4, 3⟩ (by decide) (by decide)).trans
    (by decide)

/-- C9: a label that is neither 6 ASCII digits nor date-parseable is
returned unchanged and not flagged as a week column (total function:
no error path exists). -/
theorem claim_C9_passthrough (s : String) (h1 : is6dig s = false)
    (h2 : parseDate s = none) : classifyLabel s = (s, false) := by
  unfold classifyLabel
  rw [if_neg (by simp [h1]), h2]

theorem claim_C9_passthrough_witness : classifyLabel "" = ("", false) :=
  claim_C9_passthrough "" (by decide) (by decide)

/-! ### Helper lemmas: digit windows and calendar bounds (for C8) -/

lemma data_append (a b : String) : (a ++ b).data = a.data ++ b.data := rfl

set_option maxRecDepth 8000 in
lemma natStr_window (y : Nat) (h1 : 1676 ≤ y) (h2 : y ≤ 2263) :
    (natStr y).data.length = 4 ∧ (natStr y).data.all isDig = true := by
  have hall : ((List.range' 1676 588).all
      (fun n => decide ((natStr n).data.length = 4) && (natStr n).data.all isDig)) = true := by
    decide
  have hm : y ∈ List.range' 1676 588 := List.mem_range'_1.mpr ⟨h1, by omega⟩
  have hy := List.all_eq_true.mp hall y hm
  rw [Bool.and_eq_true] at hy
  exact ⟨of_decide_eq_true hy.1, hy.2⟩

set_option maxRecDepth 8000 in
lemma pad2_window (w : Nat) (h1 : 1 ≤ w) (h2 : w ≤ 53) :
    (pad2 w).data.length = 2 ∧ (pad2 w).data.all isDig = true := by
  have hall : ((List.range' 1 53).all
      (fun n => decide ((pad2 n).data.length = 2) && (pad2 n).data.all isDig)) = true := by
    decide
  have hm : w ∈ List.range' 1 53 := List.mem_range'_1.mpr ⟨h1, by omega⟩
  have hy := List.all_eq_true.mp hall w hm
  rw [Bool.and_eq_true] at hy
  exact ⟨of_decide_eq_true hy.1, hy.2⟩

lemma mkDate_bounds {y m dd : Nat} {q : YMD} (h : mkDate y m dd = some q) :
    q = ⟨y, m, dd⟩ ∧ 1677 ≤ y ∧ y ≤ 2262 := by
  unfold mkDate at h
  split at h
  · next hv =>
    rw [Option.some.injEq] at h
    subst h
    rw [Bool.and_eq_true] at hv
    have hb := hv.2
    unfold inTsBounds tsLe at hb
    simp only [Bool.and_eq_true, Bool.or_eq_true, decide_eq_true_eq, beq_iff_eq] at hb
    exact ⟨rfl, by omega, by omega⟩
  · exact absurd h (by simp)

lemma parseDate_bounds {s : String} {d : YMD} (h : parseDate s = some d) :
    1677 ≤ d.year ∧ d.year ≤ 2262 := by
  simp only [parseDate] at h
  split at h
  · split at h
    · split at h
      · obtain ⟨rfl, h1, h2⟩ := mkDate_bounds h
        exact ⟨h1, h2⟩
      · split at h
        · split at h
          · next heq =>
            rw [Option.some.injEq] at h
            subst h
            obtain ⟨rfl, h1, h2⟩ := mkDate_bounds heq
            exact ⟨h1, h2⟩
          · obtain ⟨rfl, h1, h2⟩ := mkDate_bounds h
            exact ⟨h1, h2⟩
        · exact absurd h (by simp)
    · exact absurd h (by simp)
  · exact absurd h (by simp)

lemma weeksInYear_bounds (y : Nat) : 52 ≤ weeksInYear y ∧ weeksInYear y ≤ 53 := by
  unfold weeksInYear
  split <;> omega

lemma isocalendar_year_bounds (d : YMD) :
    d.year - 1 ≤ (isocalendar d).1 ∧ (isocalendar d).1 ≤ d.year + 1 := by
  simp only [isocalendar]
  split_ifs <;> simp <;> omega

lemma isocalendar_week_bounds (d : YMD) :
    1 ≤ (isocalendar d).2 ∧ (isocalendar d).2 ≤ 53 := by
  have hw := weeksInYear_bounds (d.year - 1)
  have hw2 := weeksInYear_bounds d.year
  simp only [isocalendar]
  split_ifs with h1 h2 <;> simp <;> omega

/-! ### Claim C8 (week-key invariant) -/

/-- C8: whenever a column is flagged as a week column, the produced
label is exactly 6 ASCII digits (4-digit ISO year, which is forced by
the pandas timestamp bounds, followed by the zero-padded 2-digit ISO
week). -/
theorem claim_C8_weekkey_invariant (s : String) (h : (classifyLabel s).2 = true) :
    (classifyLabel s).1.data.length = 6 ∧
      ∀ c ∈ (classifyLabel s).1.data, isDig c = true := by
  by_cases h6 : is6dig s = true
  · have hcl : classifyLabel s = (s, true) := by
      unfold classifyLabel; rw [if_pos h6]
    rw [hcl]
    show s.data.length = 6 ∧ ∀ c ∈ s.data, isDig c = true
    unfold is6dig at h6
    rw [Bool.and_eq_true] at h6
    exact ⟨by simpa using h6.1, List.all_eq_true.mp h6.2⟩
  · rw [Bool.not_eq_true] at h6
    cases hp : parseDate s with
    | none =>
      have hcl : classifyLabel s = (s, false) := by
        unfold classifyLabel; rw [if_neg (by simp [h6]), hp]
      rw [hcl] at h
      simp at h
    | some d =>
      have hcl : classifyLabel s =
          (natStr (isocalendar d).1 ++ pad2 (isocalendar d).2, true) := by
        unfold classifyLabel
        rw [if_neg (by simp [h6]), hp]
      rw [hcl]
      show (natStr (isocalendar d).1 ++ pad2 (isocalendar d).2).data.length = 6 ∧
        ∀ c ∈ (natStr (isocalendar d).1 ++ pad2 (isocalendar d).2).data, isDig c = true
      have hy := parseDate_bounds hp
      have hiso := isocalendar_year_bounds d
      have hw := isocalendar_week_bounds d
      have h4 := natStr_window (isocalendar d).1 (by omega) (by omega)
      have hp2 := pad2_window (isocalendar d).2 hw.1 hw.2
      constructor
      · rw [data_append, List.length_append, h4.1, hp2.1]
      · rw [data_append]
        intro c hc
        rcases List.mem_append.mp hc with hcm | hcm
        · exact List.all_eq_true.mp h4.2 c hcm
        · exact List.all_eq_true.mp hp2.2 c hcm

theorem claim_C8_weekkey_invariant_witness :
    (classifyLabel "31/12/2024").1.data.length = 6 :=
  (claim_C8_weekkey_invariant "31/12/2024" (by decide)).1

/-! ### Claims C6, C10 (row filter) -/

/-- C6: with fewer than 2 columns the filter is the identity; with at
least 2 columns it keeps labels intact and retains exactly the rows
whose column-1 cell, stringified, stripped and lowered, is "firm" or
"forecast" (the `passCell` test), preserving row order. -/
theorem claim_C6_rowfilter (df : Table) (hwf : wfTable df) :
    (df.length ≤ 1 → filter_firm_forecast_colB df = df) ∧
    (2 ≤ df.length →
      (filter_firm_forecast_colB df).map Col.label = df.map Col.label ∧
      tableRows (filter_firm_forecast_colB df) =
        (tableRows df).filter (fun r => passCell (r.getD 1 Cell.missing))) :=
  ⟨fun h => filter_small df h,
   fun h2 => ⟨filter_labels df h2, filter_rows_eq df hwf h2⟩⟩

/-- Example table for the C6 witness: status column values
`Firm / "forecast " / Other / FIRM`. -/
def exC6 : Table :=
  [⟨"Name", [.text "a", .text "b", .text "c", .text "d"]⟩,
   ⟨"Status", [.text "Firm", .text "forecast ", .text "Other", .text "FIRM"]⟩]

theorem claim_C6_rowfilter_witness :
    tableRows (filter_firm_forecast_colB exC6) =
      [[Cell.text "a", Cell.text "Firm"],
       [Cell.text "b", Cell.text "forecast "],
       [Cell.text "d", Cell.text "FIRM"]] := by
  have h := (claim_C6_rowfilter exC6 (by decide)).2 (by decide)
  rw [h.2]
  decide

/-- C10: with at least 2 columns, no retained row has a missing or
numeric status cell: the text form of missing is "nan" and the text
form of a number is sign/digit characters, neither of which passes the
firm/forecast test. -/
theorem claim_C10_drops_missing_numeric (df : Table) (hwf : wfTable df)
    (h2 : 2 ≤ df.length) (r : List Cell)
    (hr : r ∈ tableRows (filter_firm_forecast_colB df)) :
    r.getD 1 Cell.missing ≠ Cell.missing ∧
      ∀ n : Int, r.getD 1 Cell.missing ≠ Cell.num n := by
  rw [filter_rows_eq df hwf h2] at hr
  have hp := (List.mem_filter.mp hr).2
  constructor
  · intro he
    rw [he, passCell_missing] at hp
    exact absurd hp (by decide)
  · intro n he
    rw [he, passCell_num] at hp
    exact absurd hp (by decide)

/-- Example table for the C10 witness: a missing status, a numeric
status, and one passing row. -/
def exC10 : Table :=
  [⟨"Name", [.text "x", .text "y", .text "z"]⟩,
   ⟨"Status", [.missing, .num 7, .text "Firm"]⟩]

theorem claim_C10_drops_missing_numeric_witness :
    ((tableRows (filter_firm_forecast_colB exC10)).getD 0 []).getD 1 Cell.missing
      ≠ Cell.missing := by
  have h := claim_C10_drops_missing_numeric exC10 (by decide) (by decide)
    ((tableRows (filter_firm_forecast_colB exC10)).getD 0 []) (by decide)
  exact h.1

/-! ### Helper lemmas: consolidation arithmetic -/

lemma addOpt_none_iff (a b : Option Int) : addOpt a b = none ↔ a = none ∧ b = none := by
  cases a <;> cases b <;> simp [addOpt]

lemma addOpt_getD (a b : Option Int) : (addOpt a b).getD 0 = a.getD 0 + b.getD 0 := by
  cases a <;> cases b <;> simp [addOpt]

lemma foldl_addOpt (l : List (Option Int)) (a : Option Int) :
    l.foldl addOpt a =
      if a = none ∧ ∀ x ∈ l, x = none then none
      else some (a.getD 0 + (l.map (fun o => o.getD 0)).sum) := by
  induction l generalizing a with
  | nil =>
    cases a with
    | none => simp
    | some v => simp
  | cons b t ih =>
    rw [List.foldl_cons, ih (addOpt a b)]
    by_cases h : a = none ∧ ∀ x ∈ b :: t, x = none
    · have hb : b = none := h.2 b (List.mem_cons_self _ _)
      have h1 : addOpt a b = none := (addOpt_none_iff a b).mpr ⟨h.1, hb⟩
      rw [if_pos ⟨h1, fun x hx => h.2 x (List.mem_cons_of_mem _ hx)⟩, if_pos h]
    · rw [if_neg h]
      by_cases h2 : addOpt a b = none ∧ ∀ x ∈ t, x = none
      · exfalso
        apply h
        have hab := (addOpt_none_iff a b).mp h2.1
        refine ⟨hab.1, fun x hx => ?_⟩
        rcases List.mem_cons.mp hx with rfl | hx
        · exact hab.2
        · exact h2.2 x hx
      · rw [if_neg h2]
        congr 1
        rw [addOpt_getD, List.map_cons, List.sum_cons]
        ring

lemma foldl_zipWith_length {n : Nat} :
    ∀ (g : List (List (Option Int))) (acc : List (Option Int)), acc.length = n →
    (∀ c ∈ g, c.length = n) →
    (g.foldl (fun acc col => List.zipWith addOpt acc col) acc).length = n := by
  intro g
  induction g with
  | nil => intro acc h _; simpa using h
  | cons c t ih =>
    intro acc hacc hg
    rw [List.foldl_cons]
    refine ih _ ?_ (fun x hx => hg x (List.mem_cons_of_mem _ hx))
    rw [List.length_zipWith, hacc, hg c (List.mem_cons_self _ _)]
    exact min_self n

lemma foldl_zipWith_getD {n : Nat} (i : Nat) (hi : i < n) :
    ∀ (g : List (List (Option Int))) (acc : List (Option Int)), acc.length = n →
    (∀ c ∈ g, c.length = n) →
    (g.foldl (fun acc col => List.zipWith addOpt acc col) acc).getD i none =
      (g.map (fun c => c.getD i none)).foldl addOpt (acc.getD i none) := by
  intro g
  induction g with
  | nil => intro acc _ _; rfl
  | cons c t ih =>
    intro acc hacc hg
    have hc := hg c (List.mem_cons_self _ _)
    have hzlen : (List.zipWith addOpt acc c).length = n := by
      rw [List.length_zipWith, hacc, hc]; exact min_self n
    rw [List.foldl_cons, List.map_cons, List.foldl_cons,
        ih (List.zipWith addOpt acc c) hzlen (fun x hx => hg x (List.mem_cons_of_mem _ hx))]
    congr 1
    rw [List.getD_eq_getElem _ _ (by rw [hzlen]; exact hi), List.getElem_zipWith]
    congr 1
    · exact (List.getD_eq_getElem _ _ (by rw [hacc]; exact hi)).symm
    · exact (List.getD_eq_getElem _ _ (by rw [hc]; exact hi)).symm

lemma sum_getD_filterMap : ∀ l : List (Option Int),
    (l.map (fun o => o.getD 0)).sum = (l.filterMap id).sum := by
  intro l
  induction l with
  | nil => rfl
  | cons a t ih =>
    cases a with
    | none => simpa using ih
    | some v => simpa using ih

lemma numCells_getD (c : Col) (i : Nat) :
    (numCells c).getD i none = toNumeric (c.cells.getD i Cell.missing) := by
  show (c.cells.map toNumeric).getD i (toNumeric Cell.missing) = _
  exact List.getD_map c.cells Cell.missing toNumeric

lemma sumGroup_getD {n : Nat} (g : List (List (Option Int))) (hne : g ≠ [])
    (hlen : ∀ c ∈ g, c.length = n) (i : Nat) (hi : i < n) :
    (sumGroup g).getD i none =
      if ∀ x ∈ g.map (fun c => c.getD i none), x = none then none
      else some ((g.map (fun c => (c.getD i none).getD 0)).sum) := by
  obtain ⟨c0, g', rfl⟩ := List.exists_cons_of_ne_nil hne
  have hc0 : c0.length = n := hlen c0 (List.mem_cons_self _ _)
  have hg' : ∀ c ∈ g', c.length = n := fun c hc => hlen c (List.mem_cons_of_mem _ hc)
  simp only [sumGroup]
  rw [foldl_zipWith_getD i hi g' c0 hc0 hg', foldl_addOpt]
  simp only [List.map_cons, List.forall_mem_cons, List.sum_cons, List.map_map,
    Function.comp_def]

lemma sumGroup_length {n : Nat} (g : List (List (Option Int))) (hne : g ≠ [])
    (hlen : ∀ c ∈ g, c.length = n) : (sumGroup g).length = n := by
  obtain ⟨c0, g', rfl⟩ := List.exists_cons_of_ne_nil hne
  simp only [sumGroup]
  exact foldl_zipWith_length g' c0 (hlen c0 (List.mem_cons_self _ _))
    (fun c hc => hlen c (List.mem_cons_of_mem _ hc))

/-! ### Helper lemmas: locating the consolidated column -/

lemma mergeGroup_label_some {wk : Table} {k : String} {c : Col}
    (h : mergeGroup wk k = some c) : c.label = k := by
  simp only [mergeGroup] at h
  split at h
  · rw [Option.some.injEq] at h
    subst h
    rfl
  · split at h
    · rw [Option.some.injEq] at h
      subst h
      rfl
    · exact absurd h (by simp)

lemma mergeGroup_sum (wk : Table) (k : String)
    (h : anySome ((groupCols wk k).map numCells) = true) :
    mergeGroup wk k = some ⟨k, (sumGroup ((groupCols wk k).map numCells)).map optToCell⟩ := by
  simp only [mergeGroup]
  rw [if_pos h]

lemma mergeGroup_fallback (wk : Table) (k : String) (c : Col)
    (hg : groupCols wk k = [c])
    (h : anySome ((groupCols wk k).map numCells) = false) :
    mergeGroup wk k = some ⟨k, c.cells⟩ := by
  simp only [mergeGroup]
  rw [if_neg (by simp [h]), hg]

lemma mapOption_forall {α β : Type} (f : α → Option β) :
    ∀ (xs : List α) (ys : List β), mapOption f xs = some ys →
      ∀ b ∈ ys, ∃ a ∈ xs, f a = some b := by
  intro xs
  induction xs with
  | nil =>
    intro ys h b hb
    simp only [mapOption, Option.some.injEq] at h
    subst h
    simp at hb
  | cons a t ih =>
    intro ys h b hb
    simp only [mapOption] at h
    cases hfa : f a with
    | none => rw [hfa] at h; simp at h
    | some b0 =>
      cases hmt : mapOption f t with
      | none => rw [hfa, hmt] at h; simp at h
      | some bs =>
        rw [hfa, hmt] at h
        simp only [Option.some.injEq] at h
        subst h
        rcases List.mem_cons.mp hb with rfl | hb
        · exact ⟨a, List.mem_cons_self _ _, hfa⟩
        · obtain ⟨a', ha', hfa'⟩ := ih bs hmt b hb
          exact ⟨a', List.mem_cons_of_mem _ ha', hfa'⟩

lemma mapOption_exists {α β : Type} (f : α → Option β) :
    ∀ (xs : List α) (ys : List β), mapOption f xs = some ys →
      ∀ a ∈ xs, ∃ b ∈ ys, f a = some b := by
  intro xs
  induction xs with
  | nil =>
    intro ys _ a ha
    simp at ha
  | cons a0 t ih =>
    intro ys h a ha
    simp only [mapOption] at h
    cases hfa : f a0 with
    | none => rw [hfa] at h; simp at h
    | some b0 =>
      cases hmt : mapOption f t with
      | none => rw [hfa, hmt] at h; simp at h
      | some bs =>
        rw [hfa, hmt] at h
        simp only [Option.some.injEq] at h
        subst h
        rcases List.mem_cons.mp ha with rfl | ha
        · exact ⟨b0, List.mem_cons_self _ _, hfa⟩
        · obtain ⟨b, hb, hfb⟩ := ih bs hmt a ha
          exact ⟨b, List.mem_cons_of_mem _ hb, hfb⟩

lemma mapOption_map_eq {α β : Type} (f : α → Option β) (g : β → α) :
    ∀ (xs : List α) (ys : List β), mapOption f xs = some ys →
      (∀ a ∈ xs, ∀ b, f a = some b → g b = a) → ys.map g = xs := by
  intro xs
  induction xs with
  | nil =>
    intro ys h _
    simp only [mapOption, Option.some.injEq] at h
    subst h
    rfl
  | cons a t ih =>
    intro ys h hg
    simp only [mapOption] at h
    cases hfa : f a with
    | none => rw [hfa] at h; simp at h
    | some b =>
      cases hmt : mapOption f t with
      | none => rw [hfa, hmt] at h; simp at h
      | some bs =>
        rw [hfa, hmt] at h
        simp only [Option.some.injEq] at h
        subst h
        rw [List.map_cons, hg a (List.mem_cons_self _ _) b hfa,
            ih bs hmt (fun x hx => hg x (List.mem_cons_of_mem _ hx))]

lemma mapOption_eq_map {α β : Type} (f : α → Option β) (g : α → β) :
    ∀ xs : List α, (∀ a ∈ xs, f a = some (g a)) → mapOption f xs = some (xs.map g) := by
  intro xs
  induction xs with
  | nil => intro _; rfl
  | cons a t ih =>
    intro h
    simp only [mapOption]
    rw [h a (List.mem_cons_self _ _),
        ih (fun x hx => h x (List.mem_cons_of_mem _ hx)), List.map_cons]

lemma mask2_subset (df : Table) (m : List Bool) (b : Bool) :
    ∀ c ∈ mask2 df m b, c ∈ df := by
  intro c hc
  unfold mask2 at hc
  rw [List.mem_map] at hc
  obtain ⟨p, hp, rfl⟩ := hc
  exact (List.of_mem_zip (List.mem_filter.mp hp).1).1

lemma groupCols_mem_key {wk : Table} {k : String} {c : Col} (h : c ∈ groupCols wk k) :
    c ∈ wk ∧ c.label = k := by
  unfold groupCols at h
  have hm := List.mem_filter.mp h
  exact ⟨hm.1, by simpa using hm.2⟩

lemma dedupFirstAux_subset : ∀ (t : Table) (seen : List String),
    ∀ c ∈ dedupFirstAux seen t, c ∈ t := by
  intro t
  induction t with
  | nil => intro seen c hc; simp [dedupFirstAux] at hc
  | cons a t ih =>
    intro seen c hc
    rw [dedupFirstAux] at hc
    split at hc
    · exact List.mem_cons_of_mem _ (ih seen c hc)
    · rcases List.mem_cons.mp hc with rfl | hc
      · exact List.mem_cons_self _ _
      · exact List.mem_cons_of_mem _ (ih _ c hc)

lemma dedupKeepLast_subset (t : Table) : ∀ c ∈ dedupKeepLast t, c ∈ t := by
  intro c hc
  unfold dedupKeepLast at hc
  rw [List.mem_reverse] at hc
  have := dedupFirstAux_subset t.reverse [] c hc
  exact List.mem_reverse.mp this

lemma mem_label_dedupFirstAux : ∀ (t : Table) (seen : List String) (k : String),
    k ∈ (dedupFirstAux seen t).map Col.label ↔ k ∈ t.map Col.label ∧ k ∉ seen := by
  intro t
  induction t with
  | nil => intro seen k; simp [dedupFirstAux]
  | cons a t ih =>
    intro seen k
    rw [dedupFirstAux]
    split
    · next hmem =>
      rw [ih]
      simp only [List.map_cons, List.mem_cons]
      constructor
      · rintro ⟨h1, h2⟩
        exact ⟨Or.inr h1, h2⟩
      · rintro ⟨h1 | h1, h2⟩
        · subst h1; exact absurd hmem h2
        · exact ⟨h1, h2⟩
    · next hmem =>
      simp only [List.map_cons, List.mem_cons, ih]
      constructor
      · rintro (rfl | ⟨h1, h2⟩)
        · exact ⟨Or.inl rfl, hmem⟩
        · exact ⟨Or.inr h1, fun hk => h2 (Or.inr hk)⟩
      · rintro ⟨h1 | h1, h2⟩
        · exact Or.inl h1
        · by_cases hk : k = a.label
          · exact Or.inl hk
          · refine Or.inr ⟨h1, fun hh => ?_⟩
            rcases hh with h3 | h3
            · exact hk h3
            · exact h2 h3

lemma mem_label_dedupKeepLast (t : Table) (k : String) :
    k ∈ (dedupKeepLast t).map Col.label ↔ k ∈ t.map Col.label := by
  unfold dedupKeepLast
  rw [List.map_reverse, List.mem_reverse, mem_label_dedupFirstAux]
  simp [List.map_reverse, List.mem_reverse]

lemma findCol_form (wk : Table) (k : String) :
    ∀ t : Table, (∀ c ∈ t, mergeGroup wk c.label = some c) → k ∈ t.map Col.label →
      findCol t k = mergeGroup wk k := by
  intro t
  induction t with
  | nil => intro _ hk; simp at hk
  | cons a t ih =>
    intro hform hk
    by_cases hak : a.label = k
    · have ha := hform a (List.mem_cons_self _ _)
      unfold findCol
      rw [List.find?_cons_of_pos _ (by simp [hak]), ← hak]
      exact ha.symm
    · unfold findCol
      rw [List.find?_cons_of_neg _ (by simp [hak])]
      have hk' : k ∈ t.map Col.label := by
        rw [List.map_cons] at hk
        rcases List.mem_cons.mp hk with h | h
        · exact absurd h.symm hak
        · exact h
      exact ih (fun c hc => hform c (List.mem_cons_of_mem _ hc)) hk'

lemma consolidate_some (df : Table) (week_mask : List Bool)
    (hne : mask2 df week_mask true ≠ []) (l : Table)
    (hm : mapOption (mergeGroup (mask2 df week_mask true))
      (List.insertionSort strRel (((mask2 df week_mask true).map Col.label).dedup))
        = some l) :
    consolidate_weeks_fast df week_mask true =
      some (mask2 df week_mask false ++ List.insertionSort colRel (dedupKeepLast l)) := by
  simp only [consolidate_weeks_fast]
  rw [if_neg (by simpa using hne), hm]
  rfl

lemma consolidate_some_inv (df : Table) (week_mask : List Bool)
    (hne : mask2 df week_mask true ≠ []) (out : Table)
    (h : consolidate_weeks_fast df week_mask true = some out) :
    ∃ l, mapOption (mergeGroup (mask2 df week_mask true))
        (List.insertionSort strRel (((mask2 df week_mask true).map Col.label).dedup))
          = some l
      ∧ out = mask2 df week_mask false ++ List.insertionSort colRel (dedupKeepLast l) := by
  simp only [consolidate_weeks_fast] at h
  rw [if_neg (by simpa using hne)] at h
  cases hm : mapOption (mergeGroup (mask2 df week_mask true))
      (List.insertionSort strRel (((mask2 df week_mask true).map Col.label).dedup)) with
  | none => rw [hm] at h; simp at h
  | some l =>
    rw [hm] at h
    simp only [Option.some.injEq] at h
    exact ⟨l, rfl, h.symm⟩

lemma consolidate_findCol (df : Table) (week_mask : List Bool) (k : String) (out : Table)
    (hne : mask2 df week_mask true ≠ [])
    (hk : k ∈ (mask2 df week_mask true).map Col.label)
    (hnon : k ∉ (mask2 df week_mask false).map Col.label)
    (hsucc : consolidate_weeks_fast df week_mask true = some out) :
    findCol out k = mergeGroup (mask2 df week_mask true) k := by
  obtain ⟨l, hm, rfl⟩ := consolidate_some_inv df week_mask hne out hsucc
  unfold findCol
  rw [List.find?_append]
  have h1 : List.find? (fun c => c.label == k) (mask2 df week_mask false) = none := by
    rw [List.find?_eq_none]
    intro c hc
    simp only [beq_iff_eq]
    intro hck
    exact hnon (by rw [← hck]; exact List.mem_map_of_mem Col.label hc)
  rw [h1, Option.none_or]
  apply findCol_form
  · intro c hc
    have hc2 := (List.perm_insertionSort colRel _).mem_iff.mp hc
    have hc3 := dedupKeepLast_subset _ c hc2
    obtain ⟨a, _, hfa⟩ := mapOption_forall _ _ _ hm c hc3
    rw [mergeGroup_label_some hfa]
    exact hfa
  · have hk1 : k ∈ ((mask2 df week_mask true).map Col.label).dedup := List.mem_dedup.mpr hk
    have hk2 := (List.perm_insertionSort strRel _).mem_iff.mpr hk1
    obtain ⟨b, hb, hfb⟩ := mapOption_exists _ _ _ hm k hk2
    have hk3 : k ∈ l.map Col.label := by
      rw [← mergeGroup_label_some hfb]
      exact List.mem_map_of_mem Col.label hb
    have hk4 := (mem_label_dedupKeepLast _ k).mpr hk3
    exact ((List.perm_insertionSort colRel _).map Col.label).mem_iff.mpr hk4

/-! ### Claims C1, C2 (column-group consolidation) -/

/-- C1 (amended): for a week-key group with at least one numeric cell
anywhere, provided consolidation succeeds (no other group makes line
75 raise), the consolidated column holds, per row, the sum of the
non-missing coerced values across the group, and is missing exactly
when every group member coerces to missing in that row. -/
theorem claim_C1_group_sum (df : Table) (week_mask : List Bool) (k : String) (out : Table)
    (hwf : wfTable df)
    (hg : groupCols (mask2 df week_mask true) k ≠ [])
    (hnum : anySome ((groupCols (mask2 df week_mask true) k).map numCells) = true)
    (hnon : k ∉ (mask2 df week_mask false).map Col.label)
    (hsucc : consolidate_weeks_fast df week_mask true = some out) :
    findCol out k =
      some ⟨k, (List.range (nRows df)).map (fun i =>
        if ∀ c ∈ groupCols (mask2 df week_mask true) k,
            toNumeric (c.cells.getD i Cell.missing) = none
        then Cell.missing
        else Cell.num (((groupCols (mask2 df week_mask true) k).filterMap
          (fun c => toNumeric (c.cells.getD i Cell.missing))).sum))⟩ := by
  have hcne : mask2 df week_mask true ≠ [] := by
    intro h
    apply hg
    unfold groupCols
    rw [h]
    exact List.filter_nil _
  obtain ⟨c0g, g', hgdef⟩ := List.exists_cons_of_ne_nil hg
  have hkmem : k ∈ (mask2 df week_mask true).map Col.label := by
    have hc0 : c0g ∈ groupCols (mask2 df week_mask true) k := by
      rw [hgdef]; exact List.mem_cons_self _ _
    have hck := groupCols_mem_key hc0
    rw [← hck.2]
    exact List.mem_map_of_mem Col.label hck.1
  rw [consolidate_findCol df week_mask k out hcne hkmem hnon hsucc,
      mergeGroup_sum _ _ hnum]
  have hglen : ∀ c ∈ groupCols (mask2 df week_mask true) k, c.cells.length = nRows df := by
    intro c hc
    exact hwf c (mask2_subset df week_mask true c (groupCols_mem_key hc).1)
  have hgnlen : ∀ x ∈ (groupCols (mask2 df week_mask true) k).map numCells,
      x.length = nRows df := by
    intro x hx
    rw [List.mem_map] at hx
    obtain ⟨c, hc, rfl⟩ := hx
    unfold numCells
    rw [List.length_map]
    exact hglen c hc
  have hgn_ne : (groupCols (mask2 df week_mask true) k).map numCells ≠ [] := by
    rw [hgdef]
    simp
  have hrow : ∀ i : Nat,
      ((groupCols (mask2 df week_mask true) k).map numCells).map (fun c => c.getD i none)
        = (groupCols (mask2 df week_mask true) k).map
            (fun c => toNumeric (c.cells.getD i Cell.missing)) := by
    intro i
    rw [List.map_map]
    apply List.map_congr_left
    intro c _
    exact numCells_getD c i
  have hsumlen : (sumGroup ((groupCols (mask2 df week_mask true) k).map numCells)).length
      = nRows df := sumGroup_length _ hgn_ne hgnlen
  congr 2
  apply List.ext_getElem
  · rw [List.length_map, hsumlen, List.length_map, List.length_range]
  · intro i hi1 hi2
    have hin : i < nRows df := by
      rw [List.length_map, hsumlen] at hi1
      exact hi1
    rw [List.getElem_map, List.getElem_map, List.getElem_range]
    have hget : (sumGroup ((groupCols (mask2 df week_mask true) k).map numCells))[i]
        = (sumGroup ((groupCols (mask2 df week_mask true) k).map numCells)).getD i none :=
      (List.getD_eq_getElem _ _ (by rw [hsumlen]; exact hin)).symm
    rw [hget, sumGroup_getD _ hgn_ne hgnlen i hin]
    have hPQ : (∀ x ∈ ((groupCols (mask2 df week_mask true) k).map numCells).map
          (fun c => c.getD i none), x = none) ↔
        (∀ c ∈ groupCols (mask2 df week_mask true) k,
          toNumeric (c.cells.getD i Cell.missing) = none) := by
      rw [hrow i]
      exact List.forall_mem_map
    have hS : (((groupCols (mask2 df week_mask true) k).map numCells).map
          (fun c => (c.getD i none).getD 0)).sum
        = ((groupCols (mask2 df week_mask true) k).filterMap
            (fun c => toNumeric (c.cells.getD i Cell.missing))).sum := by
      have h1 : ((groupCols (mask2 df week_mask true) k).map numCells).map
            (fun c => (c.getD i none).getD 0)
          = (((groupCols (mask2 df week_mask true) k).map numCells).map
              (fun c => c.getD i none)).map (fun o => o.getD 0) := by
        simp only [List.map_map]
        apply List.map_congr_left
        intro c _
        rfl
      rw [h1, hrow i, sum_getD_filterMap, List.filterMap_map]
      rfl
    by_cases hP : ∀ x ∈ ((groupCols (mask2 df week_mask true) k).map numCells).map
        (fun c => c.getD i none), x = none
    · rw [if_pos hP, if_pos (hPQ.mp hP)]
      rfl
    · rw [if_neg hP, if_neg (fun hq => hP (hPQ.mpr hq))]
      show Cell.num _ = Cell.num _
      rw [hS]

/-- C1 counterexample table: the "202401" group is a singleton with
numeric data and satisfies every precondition of the claim, but the
sibling "202402" group has two members and no numeric cell, so the
program raises `ValueError` at line 75 and produces no consolidated
column at all. -/
def cexC1 : Table :=
  [⟨"202401", [.num 1]⟩, ⟨"202402", [.missing]⟩, ⟨"202402", [.missing]⟩]

theorem claim_C1_counterexample :
    (wfTable cexC1 ∧
      groupCols (mask2 cexC1 [true, true, true] true) "202401" ≠ [] ∧
      anySome ((groupCols (mask2 cexC1 [true, true, true] true) "202401").map numCells)
        = true ∧
      "202401" ∉ (mask2 cexC1 [true, true, true] false).map Col.label) ∧
    consolidate_weeks_fast cexC1 [true, true, true] true = none :=
  ⟨⟨by decide, by decide, by decide, by decide⟩, by decide⟩

/-- Example table for the C1 witness: two columns keyed "202401" with
values `[1, missing]` and `[missing, 2]`. -/
def exC1 : Table :=
  [⟨"202401", [.num 1, .missing]⟩, ⟨"202401", [.missing, .num 2]⟩]

theorem claim_C1_group_sum_witness :
    findCol [⟨"202401", [Cell.num 1, Cell.num 2]⟩] "202401" =
      some ⟨"202401", [Cell.num 1, Cell.num 2]⟩ := by
  have h := claim_C1_group_sum exC1 [true, true] "202401"
    [⟨"202401", [Cell.num 1, Cell.num 2]⟩]
    (by decide) (by decide) (by decide) (by decide) (by decide)
  exact h.trans (by decide)

/-- Example table of claim C2's scenario: two columns keyed "202401",
both entirely missing. -/
def exC2 : Table :=
  [⟨"202401", [.missing, .missing]⟩, ⟨"202401", [.missing, .missing]⟩]

/-- C2 (code bug): on the claim's own scenario — a two-member group
with no numeric cell anywhere — the spec promises the first column
verbatim, but line 75 assigns the multi-column frame `wk[cols[0]]`
(label selection on duplicated columns) to the single column
`wk_sum[name]` and raises `ValueError`, so consolidation produces no
output.  The verbatim fallback succeeds only for singleton groups
(third conjunct). -/
theorem claim_C2_fallback_codebug :
    (groupCols (mask2 exC2 [true, true] true) "202401"
        = [⟨"202401", [Cell.missing, Cell.missing]⟩,
           ⟨"202401", [Cell.missing, Cell.missing]⟩] ∧
      anySome ((groupCols (mask2 exC2 [true, true] true) "202401").map numCells) = false) ∧
    consolidate_weeks_fast exC2 [true, true] true = none ∧
    consolidate_weeks_fast [⟨"202401", [Cell.missing, Cell.missing]⟩] [true] true
      = some [⟨"202401", [Cell.missing, Cell.missing]⟩] :=
  ⟨⟨by decide, by decide⟩, by decide, by decide⟩

/-! ### Helper lemmas: the `wkey` order -/

lemma charsLe_total : ∀ a b : List Char, charsLe a b = true ∨ charsLe b a = true := by
  intro a
  induction a with
  | nil => intro b; left; rfl
  | cons x as ih =>
    intro b
    cases b with
    | nil => right; rfl
    | cons y bs =>
      simp only [charsLe]
      by_cases h1 : x.toNat < y.toNat
      · left; rw [if_pos h1]
      · by_cases h2 : y.toNat < x.toNat
        · right; rw [if_pos h2]
        · rw [if_neg h1, if_neg h2, if_neg h2, if_neg h1]
          exact ih bs

lemma charsLe_trans : ∀ a b c : List Char,
    charsLe a b = true → charsLe b c = true → charsLe a c = true := by
  intro a
  induction a with
  | nil => intro b c _ _; rfl
  | cons x as ih =>
    intro b c h1 h2
    cases b with
    | nil => simp [charsLe] at h1
    | cons y bs =>
      cases c with
      | nil => simp [charsLe] at h2
      | cons z cs =>
        simp only [charsLe] at h1 h2 ⊢
        by_cases hxy : x.toNat < y.toNat
        · rw [if_pos hxy] at h1
          by_cases hyz : y.toNat < z.toNat
          · rw [if_pos (by omega : x.toNat < z.toNat)]
          · rw [if_neg hyz] at h2
            by_cases hzy : z.toNat < y.toNat
            · rw [if_pos hzy] at h2; exact absurd h2 (by decide)
            · rw [if_pos (by omega : x.toNat < z.toNat)]
        · rw [if_neg hxy] at h1
          by_cases hyx : y.toNat < x.toNat
          · rw [if_pos hyx] at h1; exact absurd h1 (by decide)
          · rw [if_neg hyx] at h1
            by_cases hyz : y.toNat < z.toNat
            · rw [if_pos (by omega : x.toNat < z.toNat)]
            · rw [if_neg hyz] at h2
              by_cases hzy : z.toNat < y.toNat
              · rw [if_pos hzy] at h2; exact absurd h2 (by decide)
              · rw [if_neg hzy] at h2
                rw [if_neg (by omega : ¬ x.toNat < z.toNat),
                    if_neg (by omega : ¬ z.toNat < x.toNat)]
                exact ih bs cs h1 h2

lemma wkeyLe_total (a b : String) : wkeyLe a b = true ∨ wkeyLe b a = true := by
  unfold wkeyLe
  by_cases ha : is6dig a = true
  · by_cases hb : is6dig b = true
    · rw [if_pos ha, if_pos hb, if_pos hb, if_pos ha]
      rcases Nat.le_total (toNatD a) (toNatD b) with h | h
      · left; exact decide_eq_true h
      · right; exact decide_eq_true h
    · left
      rw [if_pos ha, if_neg hb]
  · by_cases hb : is6dig b = true
    · right
      rw [if_pos hb, if_neg ha]
    · rw [if_neg ha, if_neg hb, if_neg hb, if_neg ha]
      exact charsLe_total a.data b.data

lemma wkeyLe_trans (a b c : String) (h1 : wkeyLe a b = true) (h2 : wkeyLe b c = true) :
    wkeyLe a c = true := by
  unfold wkeyLe at h1 h2 ⊢
  by_cases ha : is6dig a = true
  · by_cases hc : is6dig c = true
    · rw [if_pos ha, if_pos hc]
      by_cases hb : is6dig b = true
      · rw [if_pos ha, if_pos hb] at h1
        rw [if_pos hb, if_pos hc] at h2
        have g1 := of_decide_eq_true h1
        have g2 := of_decide_eq_true h2
        exact decide_eq_true (by omega)
      · rw [if_neg hb, if_pos hc] at h2
        exact absurd h2 (by decide)
    · rw [if_pos ha, if_neg hc]
  · by_cases hb : is6dig b = true
    · rw [if_neg ha, if_pos hb] at h1
      exact absurd h1 (by decide)
    · by_cases hc : is6dig c = true
      · rw [if_neg hb, if_pos hc] at h2
        exact absurd h2 (by decide)
      · rw [if_neg ha, if_neg hb] at h1
        rw [if_neg hb, if_neg hc] at h2
        rw [if_neg ha, if_neg hc]
        exact charsLe_trans a.data b.data c.data h1 h2

instance : IsTotal Col colRel :=
  ⟨fun a b => by unfold colRel; exact wkeyLe_total a.label b.label⟩

instance : IsTrans Col colRel :=
  ⟨fun a b c h1 h2 => by
    unfold colRel at h1 h2 ⊢
    exact wkeyLe_trans _ _ _ h1 h2⟩

lemma dedupFirstAux_id : ∀ (t : Table) (seen : List String),
    (t.map Col.label).Nodup → (∀ k ∈ seen, k ∉ t.map Col.label) →
    dedupFirstAux seen t = t := by
  intro t
  induction t with
  | nil => intro seen _ _; rfl
  | cons a t ih =>
    intro seen hnd hdisj
    rw [List.map_cons, List.nodup_cons] at hnd
    rw [dedupFirstAux, if_neg]
    · congr 1
      apply ih (a.label :: seen) hnd.2
      intro k hk
      rcases List.mem_cons.mp hk with rfl | hk
      · exact hnd.1
      · intro hmem
        exact hdisj k hk (List.mem_cons_of_mem _ hmem)
    · intro hmem
      exact hdisj a.label hmem (by rw [List.map_cons]; exact List.mem_cons_self _ _)

lemma dedupKeepLast_eq_self (t : Table) (h : (t.map Col.label).Nodup) :
    dedupKeepLast t = t := by
  unfold dedupKeepLast
  rw [dedupFirstAux_id t.reverse []
    (by rw [List.map_reverse]; exact List.nodup_reverse.mpr h) (by simp),
    List.reverse_reverse]

/-! ### Claim C3 (output column order) -/

/-- C3 (amended): with default sorting, at least one week column, and
a successful consolidation (no group makes line 75 raise), the output
labels are the non-week labels in original order followed by the
consolidated week keys; when all week labels are 6-digit keys, that
suffix is a duplicate-free permutation of the distinct week keys,
sorted ascending by their integer value. -/
theorem claim_C3_output_order (df : Table) (week_mask : List Bool) (out : Table)
    (hne : mask2 df week_mask true ≠ [])
    (h6 : ∀ c ∈ mask2 df week_mask true, is6dig c.label = true)
    (hsucc : consolidate_weeks_fast df week_mask true = some out) :
    out.map Col.label
        = (mask2 df week_mask false).map Col.label ++
          ((out.drop (mask2 df week_mask false).length).map Col.label) ∧
    ((out.drop (mask2 df week_mask false).length).map Col.label).Perm
      (((mask2 df week_mask true).map Col.label).dedup) ∧
    ((out.drop (mask2 df week_mask false).length).map Col.label).Nodup ∧
    List.Pairwise (fun a b => toNatD a ≤ toNatD b)
      ((out.drop (mask2 df week_mask false).length).map Col.label) := by
  obtain ⟨l, hm, rfl⟩ := consolidate_some_inv df week_mask hne out hsucc
  set wk := mask2 df week_mask true with hwkdef
  set keys := List.insertionSort strRel ((wk.map Col.label).dedup) with hkeys
  set X := List.insertionSort colRel (dedupKeepLast l) with hXdef
  have hdrop : ((mask2 df week_mask false ++ X).drop (mask2 df week_mask false).length) = X :=
    List.drop_left _ _
  have hlabL : l.map Col.label = keys :=
    mapOption_map_eq (mergeGroup wk) Col.label keys l hm
      (fun a _ b hb => mergeGroup_label_some hb)
  have hkeysnd : keys.Nodup :=
    (List.perm_insertionSort strRel _).nodup_iff.mpr (List.nodup_dedup _)
  have hdedup_id : dedupKeepLast l = l :=
    dedupKeepLast_eq_self l (by rw [hlabL]; exact hkeysnd)
  have hpermX : (X.map Col.label).Perm ((wk.map Col.label).dedup) := by
    have p1 : X.Perm l := by
      rw [hXdef, hdedup_id]
      exact List.perm_insertionSort colRel l
    have p2 := p1.map Col.label
    rw [hlabL] at p2
    exact p2.trans (List.perm_insertionSort strRel _)
  have h6X : ∀ c ∈ X, is6dig c.label = true := by
    intro c hc
    have hc2 : c ∈ l := by
      have h3 := (List.perm_insertionSort colRel (dedupKeepLast l)).mem_iff.mp hc
      rw [hdedup_id] at h3
      exact h3
    obtain ⟨k', hk', hfk⟩ := mapOption_forall _ _ _ hm c hc2
    rw [mergeGroup_label_some hfk]
    have hk'mem : k' ∈ (wk.map Col.label).dedup :=
      (List.perm_insertionSort strRel _).mem_iff.mp hk'
    have h4 : k' ∈ wk.map Col.label := List.mem_dedup.mp hk'mem
    rw [List.mem_map] at h4
    obtain ⟨c', hc', rfl⟩ := h4
    exact h6 c' hc'
  have hsorted : List.Pairwise colRel X := List.sorted_insertionSort colRel (dedupKeepLast l)
  have hpw : List.Pairwise (fun a b : Col => toNatD a.label ≤ toNatD b.label) X := by
    refine hsorted.imp_of_mem ?_
    intro a b hma hmb hr
    unfold colRel at hr
    unfold wkeyLe at hr
    rw [if_pos (h6X a hma), if_pos (h6X b hmb)] at hr
    exact of_decide_eq_true hr
  refine ⟨?_, ?_, ?_, ?_⟩
  · rw [hdrop, List.map_append]
  · rw [hdrop]; exact hpermX
  · rw [hdrop]
    exact hpermX.nodup_iff.mpr (List.nodup_dedup _)
  · rw [hdrop]
    exact List.pairwise_map.mpr hpw

/-- C3 counterexample table: a duplicated 6-digit key whose group is
entirely non-numeric; the program raises at line 75 and produces no
output whose column order could be asserted. -/
def cexC3 : Table := [⟨"202401", [.missing]⟩, ⟨"202401", [.missing]⟩]

theorem claim_C3_counterexample :
    (mask2 cexC3 [true, true] true ≠ [] ∧
      ∀ c ∈ mask2 cexC3 [true, true] true, is6dig c.label = true) ∧
    consolidate_weeks_fast cexC3 [true, true] true = none :=
  ⟨⟨by decide, by decide⟩, by decide⟩

/-- Example table for the C3 witness: non-week columns Name, Status and
week keys 202402, 202401, 202410. -/
def exC3 : Table :=
  [⟨"Name", [.text "a"]⟩, ⟨"Status", [.text "Firm"]⟩,
   ⟨"202402", [.num 2]⟩, ⟨"202401", [.num 1]⟩, ⟨"202410", [.num 3]⟩]

/-- Consolidated output of the C3 witness run. -/
def exC3out : Table :=
  [⟨"Name", [.text "a"]⟩, ⟨"Status", [.text "Firm"]⟩,
   ⟨"202401", [.num 1]⟩, ⟨"202402", [.num 2]⟩, ⟨"202410", [.num 3]⟩]

theorem claim_C3_output_order_witness :
    exC3out.map Col.label = ["Name", "Status", "202401", "202402", "202410"] := by
  have h := claim_C3_output_order exC3 [false, false, true, true, true] exC3out
    (by decide) (by decide) (by decide)
  exact h.1.trans (by decide)

/-! ### Helper lemmas: pipeline fixed points (for C7) -/

lemma maskList_all_true {α : Type} : ∀ (l : List α) (m : List Bool),
    l.length = m.length → (∀ b ∈ m, b = true) → maskList l m = l := by
  intro l
  induction l with
  | nil => intro m _ _; rfl
  | cons x t ih =>
    intro m hlen htrue
    cases m with
    | nil => simp at hlen
    | cons b mt =>
      have hb : b = true := htrue b (List.mem_cons_self _ _)
      subst hb
      rw [maskList_cons_true,
        ih mt (by simpa using hlen) (fun b hb => htrue b (List.mem_cons_of_mem _ hb))]

lemma zip_map_const {α β : Type} (l : List α) (y : β) :
    l.zip (l.map (fun _ => y)) = l.map (fun x => (x, y)) := by
  induction l with
  | nil => rfl
  | cons a t ih => rw [List.map_cons, List.zip_cons_cons, ih, List.map_cons]

lemma mask2_const_same (t : Table) (b : Bool) :
    mask2 t (t.map (fun _ => b)) b = t := by
  unfold mask2
  rw [zip_map_const, List.filter_map]
  have hf : (t.filter ((fun p : Col × Bool => p.2 == b) ∘ fun x => (x, b))) = t := by
    apply List.filter_eq_self.mpr
    intro a _
    simp
  rw [hf]
  have hm : ∀ c ∈ t, (Prod.fst ∘ fun x : Col => (x, b)) c = id c := fun c _ => rfl
  rw [List.map_map, List.map_congr_left hm, List.map_id]

lemma mask2_const_other (t : Table) (b b' : Bool) (h : b ≠ b') :
    mask2 t (t.map (fun _ => b)) b' = [] := by
  unfold mask2
  rw [zip_map_const, List.filter_map]
  have hf : (t.filter ((fun p : Col × Bool => p.2 == b') ∘ fun x => (x, b))) = [] := by
    apply List.filter_eq_nil_iff.mpr
    intro a _
    simp [h]
  rw [hf]
  rfl

lemma mask2_append (t1 t2 : Table) (m1 m2 : List Bool) (hl : t1.length = m1.length)
    (b : Bool) :
    mask2 (t1 ++ t2) (m1 ++ m2) b = mask2 t1 m1 b ++ mask2 t2 m2 b := by
  unfold mask2
  rw [List.zip_append hl, List.filter_append, List.map_append]

lemma zipWith_relabel_id : ∀ t : Table,
    List.zipWith (fun l c => Col.mk l c.cells) (t.map Col.label) t = t := by
  intro t
  induction t with
  | nil => rfl
  | cons a t ih => rw [List.map_cons, List.zipWith_cons_cons, ih]

lemma groupCols_nodup_self : ∀ wk : Table, (wk.map Col.label).Nodup →
    ∀ c ∈ wk, groupCols wk c.label = [c] := by
  intro wk
  induction wk with
  | nil => intro _ c hc; simp at hc
  | cons a t ih =>
    intro hnd c hc
    rw [List.map_cons, List.nodup_cons] at hnd
    rcases List.mem_cons.mp hc with rfl | hc
    · unfold groupCols
      rw [List.filter_cons, if_pos (by simp)]
      congr 1
      apply List.filter_eq_nil_iff.mpr
      intro x hx
      simp only [beq_iff_eq]
      intro hxl
      exact hnd.1 (hxl ▸ List.mem_map_of_mem Col.label hx)
    · unfold groupCols
      rw [List.filter_cons, if_neg]
      · exact ih hnd.2 c hc
      · simp only [beq_iff_eq]
        intro hal
        exact hnd.1 (hal ▸ List.mem_map_of_mem Col.label hc)

lemma mergeGroup_singleton (wk : Table) (c : Col)
    (hgc : groupCols wk c.label = [c])
    (hnormc : (∀ v ∈ c.cells, toNumeric v = none) ∨
      (∀ v ∈ c.cells, optToCell (toNumeric v) = v)) :
    mergeGroup wk c.label = some c := by
  by_cases hs : anySome ((groupCols wk c.label).map numCells) = true
  · rw [mergeGroup_sum _ _ hs, hgc]
    have hnum2 : ∀ v ∈ c.cells, optToCell (toNumeric v) = v := by
      rcases hnormc with hvn | hvn
      · exfalso
        rw [hgc] at hs
        have hs2 : (numCells c).any Option.isSome = true := by
          simpa [anySome] using hs
        rw [List.any_eq_true] at hs2
        obtain ⟨x, hx, hsome⟩ := hs2
        unfold numCells at hx
        rw [List.mem_map] at hx
        obtain ⟨v, hv, rfl⟩ := hx
        rw [hvn v hv] at hsome
        exact absurd hsome (by decide)
      · exact hvn
    have hcells : (sumGroup ([c].map numCells)).map optToCell = c.cells := by
      show (sumGroup [numCells c]).map optToCell = c.cells
      have hsg : sumGroup [numCells c] = numCells c := rfl
      rw [hsg]
      unfold numCells
      rw [List.map_map]
      exact (List.map_congr_left fun v hv => hnum2 v hv).trans (List.map_id _)
    rw [hcells]
  · rw [mergeGroup_fallback _ _ c hgc (by simpa using hs)]

/-- Strict order on 6-digit keys by integer value. -/
def keyLt (a b : String) : Prop := toNatD a < toNatD b

instance : IsAntisymm String keyLt :=
  ⟨fun a b h1 h2 => absurd h1 (by unfold keyLt at h2 ⊢; omega)⟩

instance : DecidableRel keyLt := fun a b => by
  unfold keyLt
  infer_instance

lemma perm_eq_of_map_label_eq : ∀ l₁ l₂ : Table, l₁.Perm l₂ →
    l₁.map Col.label = l₂.map Col.label → (l₂.map Col.label).Nodup → l₁ = l₂ := by
  intro l₁
  induction l₁ with
  | nil =>
    intro l₂ hp _ _
    exact (hp.symm.eq_nil).symm
  | cons a t ih =>
    intro l₂ hp hmap hnd
    cases l₂ with
    | nil => exact hp.eq_nil
    | cons b t₂ =>
      rw [List.map_cons, List.map_cons, List.cons.injEq] at hmap
      have hlab : a.label = b.label := hmap.1
      have hmap' : t.map Col.label = t₂.map Col.label := hmap.2
      rw [List.map_cons, List.nodup_cons] at hnd
      have hab : a = b := by
        have hmem : a ∈ b :: t₂ := hp.mem_iff.mp (List.mem_cons_self a t)
        rcases List.mem_cons.mp hmem with h | h
        · exact h
        · exact absurd (hlab ▸ List.mem_map_of_mem Col.label h) hnd.1
      subst hab
      rw [ih t₂ hp.cons_inv hmap' hnd.2]

/-! ### Claim C7 (pipeline idempotence) -/

/-- C7 counterexample table: every header is a canonical 6-digit week
key and there are no duplicates, yet the pipeline is not the identity
on it — the row filter inspects column index 1, whose cells are
numeric week data, so the data row is dropped. -/
def cexC7 : Table := [⟨"202401", [.num 1]⟩, ⟨"202402", [.num 2]⟩]

theorem claim_C7_counterexample :
    ((∀ c ∈ cexC7, is6dig c.label = true) ∧ (cexC7.map Col.label).Nodup) ∧
      process_table cexC7 ≠ some cexC7 :=
  ⟨⟨by decide, by decide⟩, by decide⟩

/-- C7 (amended): the pipeline is the identity on tables of the
processed shape — non-week columns first (labels neither 6-digit nor
date-parseable), then week columns with distinct 6-digit labels
strictly ascending by integer value whose cells are numerically normal
(each week column is either entirely non-numeric under coercion, or
holds only number/missing cells) — provided the table is rectangular
and either has fewer than 2 columns or every column-1 cell passes the
firm/forecast test. -/
theorem claim_C7_pipeline_fixedpoint (non wks : Table)
    (hwf : wfTable (non ++ wks))
    (hnon : ∀ c ∈ non, is6dig c.label = false ∧ parseDate c.label = none)
    (hwk6 : ∀ c ∈ wks, is6dig c.label = true)
    (hnodup : (wks.map Col.label).Nodup)
    (hsort : List.Pairwise keyLt (wks.map Col.label))
    (hnorm : ∀ c ∈ wks, (∀ v ∈ c.cells, toNumeric v = none) ∨
      (∀ v ∈ c.cells, optToCell (toNumeric v) = v))
    (hpass : (non ++ wks).length ≤ 1 ∨
      ∀ v ∈ ((non ++ wks).getD 1 default).cells, passCell v = true) :
    process_table (non ++ wks) = some (non ++ wks) := by
  have hfil : filter_firm_forecast_colB (non ++ wks) = non ++ wks := by
    by_cases hlen : (non ++ wks).length ≤ 1
    · exact filter_small _ hlen
    · rcases hpass with h | h
      · exact absurd h hlen
      · have h1lt : 1 < (non ++ wks).length := by omega
        have hcolB_mem : (non ++ wks).getD 1 default ∈ non ++ wks := by
          rw [List.getD_eq_getElem _ _ h1lt]
          exact List.getElem_mem _
        have hid : ∀ c ∈ non ++ wks,
            applyRowMask (((non ++ wks).getD 1 default).cells.map passCell) c = id c := by
          intro c hc
          show Col.mk c.label (maskList c.cells _) = c
          rw [maskList_all_true c.cells _
            (by rw [List.length_map, hwf _ hcolB_mem, hwf _ hc])
            (by intro b hb
                rw [List.mem_map] at hb
                obtain ⟨v, hv, rfl⟩ := hb
                exact h v hv)]
        simp only [filter_firm_forecast_colB]
        rw [if_neg hlen, List.map_congr_left hid, List.map_id]
  have hcls_non : ∀ c ∈ non, classifyLabel c.label = (c.label, false) := by
    intro c hc
    unfold classifyLabel
    rw [if_neg (by simp [(hnon c hc).1]), (hnon c hc).2]
  have hcls_wk : ∀ c ∈ wks, classifyLabel c.label = (c.label, true) := by
    intro c hc
    unfold classifyLabel
    rw [if_pos (hwk6 c hc)]
  have hdr1 : (convert_headers_to_yyyyww ((non ++ wks).map Col.label)).1
      = (non ++ wks).map Col.label := by
    show ((((non ++ wks).map Col.label).map classifyLabel).map Prod.fst) = _
    rw [List.map_map, List.map_map]
    apply List.map_congr_left
    intro c hc
    show (classifyLabel c.label).1 = c.label
    rcases List.mem_append.mp hc with hm | hm
    · rw [hcls_non c hm]
    · rw [hcls_wk c hm]
  have hdr2 : (convert_headers_to_yyyyww ((non ++ wks).map Col.label)).2
      = non.map (fun _ => false) ++ wks.map (fun _ => true) := by
    show ((((non ++ wks).map Col.label).map classifyLabel).map Prod.snd) = _
    rw [List.map_map, List.map_map, List.map_append]
    congr 1
    · apply List.map_congr_left
      intro c hc
      show (classifyLabel c.label).2 = false
      rw [hcls_non c hc]
    · apply List.map_congr_left
      intro c hc
      show (classifyLabel c.label).2 = true
      rw [hcls_wk c hc]
  simp only [process_table]
  rw [hfil, hdr1, hdr2, zipWith_relabel_id]
  have hm2f : mask2 (non ++ wks) (non.map (fun _ => false) ++ wks.map (fun _ => true)) false
      = non := by
    rw [mask2_append _ _ _ _ (List.length_map _ _).symm, mask2_const_same,
        mask2_const_other wks true false (by decide), List.append_nil]
  have hm2t : mask2 (non ++ wks) (non.map (fun _ => false) ++ wks.map (fun _ => true)) true
      = wks := by
    rw [mask2_append _ _ _ _ (List.length_map _ _).symm, mask2_const_same,
        mask2_const_other non false true (by decide), List.nil_append]
  by_cases hwe : wks = []
  · subst hwe
    simp only [consolidate_weeks_fast]
    rw [hm2t]
    simp
  · have hne2 : mask2 (non ++ wks) (non.map (fun _ => false) ++ wks.map (fun _ => true)) true
        ≠ [] := by
      rw [hm2t]; exact hwe
    have hded : (wks.map Col.label).dedup = wks.map Col.label := List.Nodup.dedup hnodup
    have hkeysperm : (List.insertionSort strRel (wks.map Col.label)).Perm (wks.map Col.label) :=
      List.perm_insertionSort strRel _
    have hpoint : ∀ kk ∈ List.insertionSort strRel (wks.map Col.label),
        mergeGroup wks kk = some ((groupCols wks kk).headD default) := by
      intro kk hkk
      have hkk2 : kk ∈ wks.map Col.label := hkeysperm.mem_iff.mp hkk
      rw [List.mem_map] at hkk2
      obtain ⟨c, hc, rfl⟩ := hkk2
      rw [groupCols_nodup_self wks hnodup c hc]
      exact mergeGroup_singleton wks c (groupCols_nodup_self wks hnodup c hc) (hnorm c hc)
    have hmapS : mapOption (mergeGroup wks) (List.insertionSort strRel (wks.map Col.label))
        = some ((List.insertionSort strRel (wks.map Col.label)).map
            (fun kk => (groupCols wks kk).headD default)) :=
      mapOption_eq_map _ _ _ hpoint
    rw [consolidate_some _ _ hne2
      ((List.insertionSort strRel (wks.map Col.label)).map
        (fun kk => (groupCols wks kk).headD default))
      (by rw [hm2t, hded]; exact hmapS), hm2f]
    set M := (List.insertionSort strRel (wks.map Col.label)).map
      (fun kk => (groupCols wks kk).headD default) with hMdef
    have hMperm : M.Perm wks := by
      have h1 : ((wks.map Col.label).map (fun kk => (groupCols wks kk).headD default))
          = wks := by
        rw [List.map_map]
        refine (List.map_congr_left ?_).trans (List.map_id wks)
        intro c hc
        show (groupCols wks c.label).headD default = id c
        rw [groupCols_nodup_self wks hnodup c hc]
        rfl
      have h2 := hkeysperm.map (fun kk => (groupCols wks kk).headD default)
      rw [h1] at h2
      exact h2
    have hlabM : M.map Col.label = List.insertionSort strRel (wks.map Col.label) := by
      rw [hMdef, List.map_map]
      refine (List.map_congr_left ?_).trans (List.map_id _)
      intro kk hkk
      exact mergeGroup_label_some (hpoint kk hkk)
    have hMnodup : (M.map Col.label).Nodup := by
      rw [hlabM]
      exact hkeysperm.nodup_iff.mpr hnodup
    rw [dedupKeepLast_eq_self _ hMnodup]
    have hXperm : (List.insertionSort colRel M).Perm wks :=
      (List.perm_insertionSort colRel _).trans hMperm
    have h6X : ∀ c ∈ List.insertionSort colRel M, is6dig c.label = true := by
      intro c hc
      exact hwk6 c (hXperm.mem_iff.mp hc)
    have hsortedX : List.Pairwise colRel (List.insertionSort colRel M) :=
      List.sorted_insertionSort colRel _
    have hpwle : List.Pairwise (fun a b : Col => toNatD a.label ≤ toNatD b.label)
        (List.insertionSort colRel M) := by
      refine hsortedX.imp_of_mem ?_
      intro a b hma hmb hr
      unfold colRel wkeyLe at hr
      rw [if_pos (h6X a hma), if_pos (h6X b hmb)] at hr
      exact of_decide_eq_true hr
    have hpwneq : List.Pairwise (fun a b : String => toNatD a ≠ toNatD b)
        ((List.insertionSort colRel M).map Col.label) := by
      rw [List.Perm.pairwise_iff (fun h => Ne.symm h) (hXperm.map Col.label)]
      exact hsort.imp (fun h => Nat.ne_of_lt h)
    have hsortlab : List.Pairwise keyLt ((List.insertionSort colRel M).map Col.label) := by
      have h1 : List.Pairwise (fun a b : String => toNatD a ≤ toNatD b)
          ((List.insertionSort colRel M).map Col.label) := List.pairwise_map.mpr hpwle
      exact (h1.and hpwneq).imp (fun hab => lt_of_le_of_ne hab.1 hab.2)
    have hlabeq : (List.insertionSort colRel M).map Col.label = wks.map Col.label :=
      List.eq_of_perm_of_sorted (hXperm.map Col.label) hsortlab hsort
    rw [perm_eq_of_map_label_eq _ wks hXperm hlabeq hnodup]

/-- A processed-shape table for the C7 witness. -/
def exC7non : Table := [⟨"Name", [.text "a"]⟩, ⟨"Status", [.text "Firm"]⟩]

/-- Week part of the C7 witness table. -/
def exC7wks : Table := [⟨"202401", [.num 5]⟩, ⟨"202402", [.missing]⟩]

theorem claim_C7_pipeline_fixedpoint_witness :
    process_table (exC7non ++ exC7wks) = some (exC7non ++ exC7wks) :=
  claim_C7_pipeline_fixedpoint exC7non exC7wks
    (by decide) (by decide) (by decide) (by decide) (by decide) (by decide) (by decide)

end App
